import Mathlib

/-!
Shallow embedding of the appointment scheduling engine of the medconsult
repository (src/medconsult/core/views.py and src/medconsult/core/models.py).

Modelling conventions:
* Timestamps (`scheduled_for`) are natural numbers of minutes since an
  epoch; a time-of-day is minutes since midnight; the calendar date of a
  timestamp is `t / 1440`.
* Database tables are lists of rows; foreign keys are flattened to ids.
* Queryset `order_by` is modelled by a stable insertion sort (`orderBy`).
* The storage layer's `unique_doctor_timeslot` constraint
  (`Appointment.Meta` in models.py) makes `Appointment.objects.create`
  fallible: a violation raises IntegrityError, modelled as an error
  value.  No view in views.py catches IntegrityError.
-/

/-- Appointment statuses, from `Appointment.STATUS_CHOICES` in models.py. -/
inductive Status
  | requested
  | approved
  | rejected
  | completed
  | cancelled
  | reschedule_requested
  | rescheduled
deriving DecidableEq, Repr, Inhabited

/-- A row of the `Appointment` table (models.py): foreign keys `patient`,
`doctor`, `payment`, `rescheduled_from` are flattened to ids.
`scheduled_for` is minutes since the epoch. -/
structure Appt where
  id : Nat
  patient : Nat
  doctor : Nat
  scheduled_for : Nat
  reason : String
  status : Status
  payment : Option Nat
  rescheduled_from : Option Nat
deriving DecidableEq, Repr, Inhabited

/-- A row of the `DoctorAvailability` table for a fixed doctor
(models.py): the date and the start/end times of the window, in
minutes. -/
structure Window where
  date : Nat
  start_time : Nat
  end_time : Nat
deriving DecidableEq, Repr, Inhabited

/-- `SLOT_MINUTES` in views.py. -/
def SLOT_MINUTES : Nat := 30

/-- Stable insertion of `a` into a list sorted by `le`. -/
def insertSorted (le : α → α → Bool) (a : α) : List α → List α
  | [] => [a]
  | b :: l => if le a b then a :: b :: l else b :: insertSorted le a l

/-- Stable sort by `le`; models the queryset `order_by` clauses. -/
def orderBy (le : α → α → Bool) : List α → List α
  | [] => []
  | a :: l => insertSorted le a (orderBy le l)

/-- The `while current_start + SLOT_DELTA <= window_end` loop of
`get_available_slots_for_doctor` (views.py) over one availability
window: emit the slot `(step, step + 30)` whenever the slot lies in the
future (`current_start > now`) and is not booked, then advance by 30
minutes. -/
def windowSlots (now : Nat) (booked : List Nat) (current_start window_end : Nat) :
    List (Nat × Nat) :=
  if _hstep : current_start + SLOT_MINUTES ≤ window_end then
    (if now < current_start ∧ current_start ∉ booked then
      [(current_start, current_start + SLOT_MINUTES)]
     else []) ++ windowSlots now booked (current_start + SLOT_MINUTES) window_end
  else []
termination_by window_end - current_start
decreasing_by simp only [SLOT_MINUTES] at *; omega

/-- `get_available_slots_for_doctor` (views.py): `windows` are the
`DoctorAvailability` rows of the requested doctor and date as
(start, end) pairs in minutes, ordered by start time as the queryset
does; `booked` are the `scheduled_for` values of that doctor's
appointments on that date whose status is not in
{cancelled, rejected, rescheduled}. -/
def get_available_slots_for_doctor (windows : List (Nat × Nat))
    (booked : List Nat) (now : Nat) : List (Nat × Nat) :=
  ((orderBy (fun w v => w.1 ≤ v.1) windows).map
    (fun w => windowSlots now booked w.1 w.2)).flatten

/-- The candidate slots of a window as the specification words them: the
i-th candidate starts 30·i minutes after the window start, one candidate
per full 30 minutes of window length, no fractional remainder slot. -/
def specSlots (s e : Nat) : List (Nat × Nat) :=
  (List.range ((e - s) / SLOT_MINUTES)).map
    (fun i => (s + SLOT_MINUTES * i, s + SLOT_MINUTES * i + SLOT_MINUTES))

theorem specSlots_step (s e : Nat) (h : s + SLOT_MINUTES ≤ e) :
    specSlots s e = (s, s + SLOT_MINUTES) :: specSlots (s + SLOT_MINUTES) e := by
  simp only [SLOT_MINUTES] at *
  have h30 : (e - s) / 30 = (e - (s + 30)) / 30 + 1 := by
    have h1 : e - s = (e - (s + 30)) + 30 := by omega
    rw [h1, Nat.add_div_right _ (by norm_num)]
  simp only [specSlots, SLOT_MINUTES, h30, List.range_succ_eq_map, List.map_cons,
    List.map_map]
  refine congrArg₂ List.cons (by simp) ?_
  apply List.map_congr_left
  intro i _
  simp only [Function.comp_apply, Nat.succ_eq_add_one, Prod.mk.injEq]
  omega

theorem windowSlots_eq_filter (now : Nat) (booked : List Nat) :
    ∀ s e : Nat, windowSlots now booked s e
      = (specSlots s e).filter (fun p => decide (now < p.1 ∧ p.1 ∉ booked)) := by
  intro s e
  induction s, e using windowSlots.induct now booked with
  | case1 s e h ih =>
    rw [windowSlots, dif_pos h, specSlots_step s e h, List.filter_cons, ih]
    by_cases hc : now < s ∧ s ∉ booked
    · simp [hc]
    · simp [hc]
  | case2 s e h =>
    rw [windowSlots, dif_neg h]
    simp only [SLOT_MINUTES] at h
    have : (e - s) / 30 = 0 := by omega
    simp [specSlots, SLOT_MINUTES, this]

/-- C1: the slot generator walks the windows in start-time order, and on
each window emits exactly the candidate slots (step, step + 30) with
step + 30 ≤ window end — ⌊L/30⌋ candidates for a window of length L, no
fractional remainder — keeping a slot iff its start is strictly after
`now` and not in the booked set, ordered by window then by time. -/
theorem get_available_slots_correct (windows : List (Nat × Nat))
    (booked : List Nat) (now : Nat) :
    get_available_slots_for_doctor windows booked now
      = ((orderBy (fun w v => w.1 ≤ v.1) windows).map
          (fun w => (specSlots w.1 w.2).filter
            (fun p => decide (now < p.1 ∧ p.1 ∉ booked)))).flatten
    ∧ ∀ s e : Nat, (specSlots s e).length = (e - s) / 30 := by
  constructor
  · unfold get_available_slots_for_doctor
    congr 1
    apply List.map_congr_left
    intro w _
    exact windowSlots_eq_filter now booked w.1 w.2
  · intro s e
    simp [specSlots, SLOT_MINUTES]

/-- The booking pre-check in `patient_appointment_create` (views.py):
`Appointment.objects.filter(doctor=doctor, scheduled_for=slot_start)
.exclude(status="cancelled").exists()`. -/
def bookingPreCheckOccupied (db : List Appt) (doctor slot_start : Nat) : Bool :=
  db.any (fun a =>
    decide (a.doctor = doctor ∧ a.scheduled_for = slot_start ∧ a.status ≠ Status.cancelled))

/-- A row exists at (doctor, scheduled_for), any status whatsoever: the
predicate guarded by the `unique_doctor_timeslot` constraint of
`Appointment.Meta` (models.py). -/
def hasRecordAt (db : List Appt) (doctor slot_start : Nat) : Bool :=
  db.any (fun a => decide (a.doctor = doctor ∧ a.scheduled_for = slot_start))

/-- `Appointment.objects.create(...)` as mediated by the storage layer:
the insert appends the row unless the `unique_doctor_timeslot`
constraint is violated, in which case the storage layer raises
IntegrityError, modelled as `Except.error ()`. -/
def insertAppointment (db : List Appt) (a : Appt) : Except Unit (List Appt) :=
  if hasRecordAt db a.doctor a.scheduled_for then Except.error ()
  else Except.ok (db ++ [a])

/-- The per-slot booking loop of `patient_appointment_create` (views.py).
Slot starts arrive already parsed (a string `datetime.strptime` rejects
is skipped by `continue` before any database access, so it is the same
as being absent from the list).  An IntegrityError raised by
`Appointment.objects.create` is not caught anywhere in the view, so it
aborts the request; rows created before the abort persist (autocommit),
recorded in the `Except.error` payload. -/
def patient_appointment_create_loop (patient doctor : Nat) (reason : String) :
    List Appt → Nat → Nat → List Nat → Except (List Appt) (List Appt × Nat)
  | db, _, created, [] => Except.ok (db, created)
  | db, nextId, created, t :: rest =>
    if bookingPreCheckOccupied db doctor t then
      patient_appointment_create_loop patient doctor reason db nextId created rest
    else
      match insertAppointment db
        { id := nextId, patient := patient, doctor := doctor,
          scheduled_for := t, reason := reason, status := Status.requested,
          payment := none, rescheduled_from := none } with
      | Except.error _ => Except.error db
      | Except.ok db2 =>
        patient_appointment_create_loop patient doctor reason db2 (nextId + 1) (created + 1) rest

/-- The POST booking step of `patient_appointment_create` (views.py):
walk the requested slot starts, pre-check each, insert a `requested`
appointment when the pre-check finds the slot free, and count the rows
actually created. -/
def patient_appointment_create (db : List Appt) (patient doctor : Nat)
    (slot_starts : List Nat) (reason : String) (nextId : Nat) :
    Except (List Appt) (List Appt × Nat) :=
  patient_appointment_create_loop patient doctor reason db nextId 0 slot_starts

/-- A cancelled appointment row used as the failing input for the claim
about IntegrityError handling in the booking path. -/
def cancelledRow600 : Appt :=
  { id := 0, patient := 1, doctor := 2, scheduled_for := 600, reason := "checkup",
    status := Status.cancelled, payment := none, rescheduled_from := none }

/-- C2: the claim states that a uniqueness violation raised at insert
time is caught and treated as "slot just taken" and never propagates as
a crash.  The view contains no handler for IntegrityError (the import
at the top of views.py is unused), so the claim fails: with a cancelled
row at (doctor 2, minute 600) the pre-check — which excludes only
status "cancelled" — reports the slot free, the insert then violates
`unique_doctor_timeslot`, and the IntegrityError escapes the per-slot
loop as a crash instead of being treated as "slot just taken". -/
theorem booking_uniqueness_violation_crashes :
    bookingPreCheckOccupied [cancelledRow600] 2 600 = false
    ∧ patient_appointment_create [cancelledRow600] 1 2 [600] "flu" 10
        = Except.error [cancelledRow600] := by
  constructor
  · rfl
  · rfl

/-- The invariant declared by `unique_doctor_timeslot` (models.py): no
two rows share (doctor, scheduled_for), regardless of status. -/
def UniqueDoctorSlot (db : List Appt) : Prop :=
  db.Pairwise (fun x y => ¬(x.doctor = y.doctor ∧ x.scheduled_for = y.scheduled_for))

/-- C10: the storage layer enforces uniqueness of (doctor,
scheduled_for) over all appointment rows regardless of status: an
insert fails exactly when any row — active or not — already sits at
that pair, successful inserts preserve the at-most-one-row invariant,
and in particular an inactive row still blocks an insert that the
application-level booking pre-check would consider free. -/
theorem unique_constraint_blind_to_status (db : List Appt) (a : Appt) :
    (insertAppointment db a = Except.error ()
      ↔ ∃ x ∈ db, x.doctor = a.doctor ∧ x.scheduled_for = a.scheduled_for)
    ∧ (∀ db2, insertAppointment db a = Except.ok db2 →
        UniqueDoctorSlot db → UniqueDoctorSlot db2)
    ∧ (bookingPreCheckOccupied db a.doctor a.scheduled_for = false →
        hasRecordAt db a.doctor a.scheduled_for = true →
        insertAppointment db a = Except.error ()) := by
  refine ⟨?_, ?_, ?_⟩
  · unfold insertAppointment hasRecordAt
    by_cases hrec : db.any (fun x => decide (x.doctor = a.doctor ∧ x.scheduled_for = a.scheduled_for)) = true
    · simp only [hrec, if_pos, true_iff]
      simpa using hrec
    · simp only [hrec]
      simp only [List.any_eq_true, decide_eq_true_eq] at hrec
      simp [hrec]
  · intro db2 hok huniq
    unfold insertAppointment at hok
    by_cases hrec : hasRecordAt db a.doctor a.scheduled_for = true
    · simp [hrec] at hok
    · rw [if_neg hrec] at hok
      cases hok
      unfold UniqueDoctorSlot at huniq ⊢
      rw [List.pairwise_append]
      refine ⟨huniq, by simp, ?_⟩
      intro x hx y hy
      simp only [List.mem_singleton] at hy
      subst hy
      unfold hasRecordAt at hrec
      simp only [List.any_eq_true, decide_eq_true_eq] at hrec
      push_neg at hrec
      intro hcon
      exact absurd hcon.2 (hrec x hx hcon.1)
  · intro _ hrec
    unfold insertAppointment
    simp [hrec]

/-- Witness for the C10 theorem: a cancelled row at (doctor 2, minute
630) blocks a fresh insert at the same pair even though the booking
pre-check reports the slot free. -/
theorem unique_constraint_blind_to_status_witness :
    insertAppointment
      [{ id := 0, patient := 1, doctor := 2, scheduled_for := 630, reason := "",
         status := Status.cancelled, payment := none, rescheduled_from := none }]
      { id := 5, patient := 3, doctor := 2, scheduled_for := 630, reason := "",
        status := Status.requested, payment := none, rescheduled_from := none }
      = Except.error () :=
  (unique_constraint_blind_to_status
    [{ id := 0, patient := 1, doctor := 2, scheduled_for := 630, reason := "",
       status := Status.cancelled, payment := none, rescheduled_from := none }]
    { id := 5, patient := 3, doctor := 2, scheduled_for := 630, reason := "",
      status := Status.requested, payment := none, rescheduled_from := none }).2.2
    (by decide) (by decide)

/-- The requested starts the booking pre-check finds free against a
fixed database. -/
def freeStarts (db : List Appt) (doctor : Nat) (starts : List Nat) : List Nat :=
  starts.filter (fun t => !(bookingPreCheckOccupied db doctor t))

/-- The rows the booking loop creates for a list of free starts,
beginning at id `nextId`. -/
def newRecords (patient doctor : Nat) (reason : String) : Nat → List Nat → List Appt
  | _, [] => []
  | nextId, t :: ts =>
    { id := nextId, patient := patient, doctor := doctor, scheduled_for := t,
      reason := reason, status := Status.requested, payment := none,
      rescheduled_from := none } :: newRecords patient doctor reason (nextId + 1) ts

theorem bookingPreCheckOccupied_append (db extra : List Appt) (doctor t : Nat) :
    bookingPreCheckOccupied (db ++ extra) doctor t
      = (bookingPreCheckOccupied db doctor t || bookingPreCheckOccupied extra doctor t) := by
  simp [bookingPreCheckOccupied, List.any_append]

theorem hasRecordAt_append (db extra : List Appt) (doctor t : Nat) :
    hasRecordAt (db ++ extra) doctor t
      = (hasRecordAt db doctor t || hasRecordAt extra doctor t) := by
  simp [hasRecordAt, List.any_append]

theorem length_filter_add_length_filter_not (p : α → Bool) (l : List α) :
    (l.filter p).length + (l.filter (fun a => !(p a))).length = l.length := by
  induction l with
  | nil => simp
  | cons a l ih =>
    by_cases h : p a = true
    · simp [List.filter_cons, h, ← ih]; omega
    · simp only [Bool.not_eq_true] at h
      simp [List.filter_cons, h, ← ih]; omega

theorem patient_appointment_create_loop_spec (db : List Appt)
    (patient doctor : Nat) (reason : String) :
    ∀ (starts : List Nat) (extra : List Appt) (nextId created : Nat),
    starts.Nodup →
    (∀ t ∈ starts, bookingPreCheckOccupied db doctor t = false →
      hasRecordAt db doctor t = false) →
    (∀ r ∈ extra, r.doctor = doctor ∧ r.scheduled_for ∉ starts) →
    patient_appointment_create_loop patient doctor reason (db ++ extra) nextId created starts
      = Except.ok
          (db ++ extra ++ newRecords patient doctor reason nextId (freeStarts db doctor starts),
           created + (freeStarts db doctor starts).length) := by
  intro starts
  induction starts with
  | nil =>
    intro extra nextId created _ _ _
    simp [patient_appointment_create_loop, freeStarts, newRecords]
  | cons t rest ih =>
    intro extra nextId created hnodup hfree hextra
    have hnodup_rest : rest.Nodup := (List.nodup_cons.mp hnodup).2
    have ht_notin : t ∉ rest := (List.nodup_cons.mp hnodup).1
    have hextra_not_t : bookingPreCheckOccupied extra doctor t = false := by
      rw [Bool.eq_false_iff]
      intro hcon
      simp only [bookingPreCheckOccupied, List.any_eq_true, decide_eq_true_eq] at hcon
      obtain ⟨r, hr, _, hsched, _⟩ := hcon
      exact absurd (hsched ▸ (hextra r hr).2) (by simp)
    have hpre : bookingPreCheckOccupied (db ++ extra) doctor t
        = bookingPreCheckOccupied db doctor t := by
      rw [bookingPreCheckOccupied_append, hextra_not_t, Bool.or_false]
    by_cases hocc : bookingPreCheckOccupied db doctor t = true
    · rw [patient_appointment_create_loop, if_pos (by rw [hpre]; exact hocc)]
      have hfs : freeStarts db doctor (t :: rest) = freeStarts db doctor rest := by
        simp [freeStarts, List.filter_cons, hocc]
      rw [hfs]
      exact ih extra nextId created hnodup_rest
        (fun u hu => hfree u (List.mem_cons_of_mem _ hu))
        (fun r hr => ⟨(hextra r hr).1, fun hin => (hextra r hr).2 (List.mem_cons_of_mem _ hin)⟩)
    · have hocc' : bookingPreCheckOccupied db doctor t = false := by
        simpa using hocc
      have hnorec : hasRecordAt db doctor t = false := hfree t (List.mem_cons_self t rest) hocc'
      have hextra_norec : hasRecordAt extra doctor t = false := by
        rw [Bool.eq_false_iff]
        intro hcon
        simp only [hasRecordAt, List.any_eq_true, decide_eq_true_eq] at hcon
        obtain ⟨r, hr, _, hsched⟩ := hcon
        exact absurd (hsched ▸ (hextra r hr).2) (by simp)
      rw [patient_appointment_create_loop, if_neg (by rw [hpre]; simp [hocc'])]
      rw [insertAppointment]
      rw [if_neg (by rw [hasRecordAt_append, hnorec, hextra_norec]; simp)]
      have hfs : freeStarts db doctor (t :: rest) = t :: freeStarts db doctor rest := by
        simp [freeStarts, List.filter_cons, hocc']
      rw [hfs, newRecords]
      set newRec : Appt :=
        { id := nextId, patient := patient, doctor := doctor, scheduled_for := t,
          reason := reason, status := Status.requested, payment := none,
          rescheduled_from := none } with hnewRec
      have hstep := ih (extra ++ [newRec]) (nextId + 1) (created + 1) hnodup_rest
        (fun u hu => hfree u (List.mem_cons_of_mem _ hu))
        (by
          intro r hr
          rcases List.mem_append.mp hr with hr1 | hr2
          · exact ⟨(hextra r hr1).1,
              fun hin => (hextra r hr1).2 (List.mem_cons_of_mem _ hin)⟩
          · simp only [List.mem_singleton] at hr2
            subst hr2
            exact ⟨rfl, ht_notin⟩)
      rw [← List.append_assoc] at hstep
      refine hstep.trans ?_
      congr 2
      · simp
      · simp only [List.length_cons]
        omega

theorem newRecords_mem (patient doctor : Nat) (reason : String) :
    ∀ (ts : List Nat) (nextId : Nat) (r : Appt),
    r ∈ newRecords patient doctor reason nextId ts →
    r.status = Status.requested ∧ r.patient = patient ∧ r.doctor = doctor
      ∧ r.scheduled_for ∈ ts := by
  intro ts
  induction ts with
  | nil => intro nextId r hr; simp [newRecords] at hr
  | cons t rest ih =>
    intro nextId r hr
    rw [newRecords] at hr
    rcases List.mem_cons.mp hr with hr1 | hr2
    · subst hr1; exact ⟨rfl, rfl, rfl, List.mem_cons_self _ _⟩
    · obtain ⟨h1, h2, h3, h4⟩ := ih (nextId + 1) r hr2
      exact ⟨h1, h2, h3, List.mem_cons_of_mem _ h4⟩

/-- C3 (amended): for N distinct well-formed slot starts of which M are
occupied by an appointment the booking pre-check counts as active
(status other than cancelled), and whose remaining N − M free starts
hold no appointment row of any status, the booking step inserts one
`requested` appointment per free start, skips each occupied start
silently, returns exactly N − M as the created count, and leaves every
pre-existing row — in particular the M occupying appointments —
unchanged (the prior table is an untouched initial segment of the new
one). -/
theorem patient_appointment_create_amended (db : List Appt)
    (patient doctor : Nat) (reason : String) (slot_starts : List Nat) (nextId : Nat)
    (hnodup : slot_starts.Nodup)
    (hclean : ∀ t ∈ slot_starts, bookingPreCheckOccupied db doctor t = false →
      hasRecordAt db doctor t = false) :
    patient_appointment_create db patient doctor slot_starts reason nextId
      = Except.ok
          (db ++ newRecords patient doctor reason nextId (freeStarts db doctor slot_starts),
           slot_starts.length
             - (slot_starts.filter (fun t => bookingPreCheckOccupied db doctor t)).length)
    ∧ ∀ r ∈ newRecords patient doctor reason nextId (freeStarts db doctor slot_starts),
        r.status = Status.requested ∧ r.patient = patient ∧ r.doctor = doctor
          ∧ r.scheduled_for ∈ slot_starts
          ∧ bookingPreCheckOccupied db doctor r.scheduled_for = false := by
  constructor
  · have h := patient_appointment_create_loop_spec db patient doctor reason slot_starts
      [] nextId 0 hnodup hclean (by simp)
    rw [List.append_nil] at h
    unfold patient_appointment_create
    rw [h]
    have hlen : (freeStarts db doctor slot_starts).length
        = slot_starts.length
          - (slot_starts.filter (fun t => bookingPreCheckOccupied db doctor t)).length := by
      have := length_filter_add_length_filter_not
        (fun t => bookingPreCheckOccupied db doctor t) slot_starts
      unfold freeStarts
      omega
    rw [hlen, Nat.zero_add]
  · intro r hr
    obtain ⟨h1, h2, h3, h4⟩ := newRecords_mem patient doctor reason _ nextId r hr
    have h5 : r.scheduled_for ∈ slot_starts := List.mem_of_mem_filter h4
    have h6 : bookingPreCheckOccupied db doctor r.scheduled_for = false := by
      have := List.of_mem_filter h4
      simpa using this
    exact ⟨h1, h2, h3, h5, h6⟩

/-- An active (requested) appointment occupying minute 540 of doctor 2,
used in the C3 witness. -/
def activeRow540 : Appt :=
  { id := 0, patient := 9, doctor := 2, scheduled_for := 540, reason := "exam",
    status := Status.requested, payment := none, rescheduled_from := none }

/-- Witness for the C3 amended theorem: booking [540, 570] when 540 is
occupied by an active appointment and 570 is untouched creates exactly
one row and reports createdCount = 2 - 1. -/
theorem patient_appointment_create_amended_witness :
    patient_appointment_create [activeRow540] 3 2 [540, 570] "flu" 10
      = Except.ok
          ([activeRow540] ++ newRecords 3 2 "flu" 10 (freeStarts [activeRow540] 2 [540, 570]),
           2 - 1)
    ∧ (2 : Nat) - 1
        = [540, 570].length
          - (List.filter (fun t => bookingPreCheckOccupied [activeRow540] 2 t) [540, 570]).length :=
  ⟨by
    have h := (patient_appointment_create_amended [activeRow540] 3 2 "flu" [540, 570] 10
      (by decide) (by decide)).1
    rw [h]
    rfl,
   by rfl⟩

/-- A cancelled appointment row at minute 730 of doctor 4, the concrete
input refuting C3 as stated. -/
def cancelledRow730 : Appt :=
  { id := 0, patient := 1, doctor := 4, scheduled_for := 730, reason := "",
    status := Status.cancelled, payment := none, rescheduled_from := none }

/-- C3 counterexample: with one requested start (N = 1) occupied by no
active appointment (M = 0, the pre-check reports it free because only a
cancelled row sits there), the claim promises createdCount = 1; the
code instead hits the status-blind uniqueness constraint at insert time
and the request aborts with an uncaught IntegrityError, returning no
count at all. -/
theorem patient_appointment_create_counterexample :
    bookingPreCheckOccupied [cancelledRow730] 4 730 = false
    ∧ patient_appointment_create [cancelledRow730] 6 4 [730] "visit" 20
        = Except.error [cancelledRow730] := by
  constructor
  · rfl
  · rfl

/-- The statuses `doctor_update_appointments` accepts in set_status
mode (views.py). -/
def allowedSetStatuses : List Status :=
  [Status.requested, Status.approved, Status.rejected,
   Status.completed, Status.cancelled, Status.reschedule_requested]

/-- `.delete()` on an appointment row: removes the row and, per
`on_delete=SET_NULL` on `rescheduled_from` (models.py), nulls the link
of every row that referenced the deleted one. -/
def deleteAppt (db : List Appt) (targetId : Nat) : List Appt :=
  (db.filter (fun a => decide (a.id ≠ targetId))).map
    (fun a => if a.rescheduled_from = some targetId
      then { a with rescheduled_from := none } else a)

/-- `.save()` on an in-memory appointment instance: update the row with
that id to the instance's fields. -/
def saveAppt (db : List Appt) (a : Appt) : List Appt :=
  db.map (fun x => if x.id = a.id then a else x)

/-- One iteration of the set_status loop of `doctor_update_appointments`
(views.py).  Approving an appointment with a `rescheduled_from` link
runs `original.delete()` — persisted: the original row is removed and
SET_NULL clears every link to it — and then `appt.save()`; but
`original` is the related instance cached on `appt`, and the delete set
its primary key to None, so `Model.save()`'s unsaved-related-object
guard raises ValueError ("save() prohibited to prevent data loss due
to unsaved related object") before the approved status is written.
Nothing in views.py catches it, so the step aborts the request with
the table as after the delete, modelled as `Except.error`.
Rejecting or cancelling such an appointment only calls `appt.delete()`
(no save, so no such crash); every other case saves the new status in
place — there the cached related instance, if any, still has its
primary key, so the save succeeds. -/
def setStatusStep (db : List Appt) (appt : Appt) (new_status : Status) :
    Except (List Appt) (List Appt) :=
  match appt.rescheduled_from with
  | some origId =>
    if new_status = Status.approved then
      Except.error (deleteAppt db origId)
    else if new_status = Status.rejected ∨ new_status = Status.cancelled then
      Except.ok (deleteAppt db appt.id)
    else
      Except.ok (saveAppt db { appt with status := new_status })
  | none => Except.ok (saveAppt db { appt with status := new_status })

/-- The set_status loop over the snapshot of selected appointments: an
uncaught exception in one step aborts the remaining iterations. -/
def setStatusLoop (new_status : Status) :
    List Appt → List Appt → Except (List Appt) (List Appt)
  | [], db => Except.ok db
  | appt :: rest, db =>
    match setStatusStep db appt new_status with
    | Except.ok db2 => setStatusLoop new_status rest db2
    | Except.error db2 => Except.error db2

/-- The set_status mode of `doctor_update_appointments` (views.py): the
selected appointments of the acting doctor are snapshot, ordered by
`scheduled_for`, and each is decided in turn against the evolving
table; an invalid status leaves the table unchanged.  The error case
carries the table at the moment of the uncaught exception. -/
def doctor_update_appointments_set_status (db : List Appt) (doctor : Nat)
    (slot_ids : List Nat) (new_status : Status) : Except (List Appt) (List Appt) :=
  if new_status ∈ allowedSetStatuses then
    setStatusLoop new_status
      (orderBy (fun a b => a.scheduled_for ≤ b.scheduled_for)
        (db.filter (fun a => decide (a.id ∈ slot_ids ∧ a.doctor = doctor))))
      db
  else Except.ok db

/-- The table state carried by a set_status outcome: both the success
and the crash leave a (committed) table behind. -/
def exceptTable : Except (List Appt) (List Appt) → List Appt
  | Except.ok db => db
  | Except.error db => db

theorem orderBy_single (le : α → α → Bool) (a : α) : orderBy le [a] = [a] := rfl

theorem filter_eq_singleton_of_nodup (appt : Appt) (p : Appt → Bool)
    (hp : p appt = true) (hid : ∀ x, p x = true → x.id = appt.id) :
    ∀ db : List Appt, (db.map (fun a => a.id)).Nodup → appt ∈ db →
    db.filter p = [appt] := by
  intro db
  induction db with
  | nil => intro _ ha; cases ha
  | cons b rest ih =>
    intro hN ha
    simp only [List.map_cons, List.nodup_cons] at hN
    obtain ⟨hbnot, hNrest⟩ := hN
    rcases List.mem_cons.mp ha with hb | hmem
    · subst hb
      rw [List.filter_cons, if_pos hp]
      have hrest : rest.filter p = [] := by
        rw [List.filter_eq_nil_iff]
        intro x hx hcon
        exact hbnot ((hid x hcon) ▸ List.mem_map_of_mem (fun a => a.id) hx)
      rw [hrest]
    · have hbp : p b = false := by
        rw [Bool.eq_false_iff]
        intro hcon
        exact hbnot ((hid b hcon) ▸ List.mem_map_of_mem (fun a => a.id) hmem)
      rw [List.filter_cons, if_neg (by simp [hbp]), ih hNrest hmem]

theorem filter_map_nil_general (g : Appt → Appt) (q p : Appt → Bool) :
    ∀ db : List Appt, (∀ x ∈ db, q x = true → p (g x) = false) →
    ((db.filter q).map g).filter p = [] := by
  intro db
  induction db with
  | nil => intro _; rfl
  | cons b rest ih =>
    intro h
    rw [List.filter_cons]
    by_cases hq : q b = true
    · rw [if_pos hq, List.map_cons, List.filter_cons,
        if_neg (by simp [h b (List.mem_cons_self b rest) hq])]
      exact ih (fun x hx => h x (List.mem_cons_of_mem _ hx))
    · rw [if_neg (by simp [hq])]
      exact ih (fun x hx => h x (List.mem_cons_of_mem _ hx))

theorem filter_map_singleton_general (g : Appt → Appt) (q p : Appt → Bool) (b : Appt)
    (hqb : q b = true) (hpb : p (g b) = true) :
    ∀ db : List Appt, (db.map (fun a => a.id)).Nodup → b ∈ db →
    (∀ x ∈ db, x.id ≠ b.id → q x = true → p (g x) = false) →
    ((db.filter q).map g).filter p = [g b] := by
  intro db
  induction db with
  | nil => intro _ hb; cases hb
  | cons c rest ih =>
    intro hN hb hothers
    simp only [List.map_cons, List.nodup_cons] at hN
    obtain ⟨hcnot, hNrest⟩ := hN
    rcases List.mem_cons.mp hb with hc | hmem
    · subst hc
      rw [List.filter_cons, if_pos hqb, List.map_cons, List.filter_cons, if_pos hpb]
      have hrest : ((rest.filter q).map g).filter p = [] := by
        apply filter_map_nil_general
        intro x hx hqx
        refine hothers x (List.mem_cons_of_mem _ hx) ?_ hqx
        intro hcon
        exact hcnot (hcon ▸ List.mem_map_of_mem (fun a => a.id) hx)
      rw [hrest]
    · have hcneb : c.id ≠ b.id := by
        intro hcon
        exact hcnot (hcon ▸ List.mem_map_of_mem (fun a => a.id) hmem)
      have hrec := ih hNrest hmem (fun x hx => hothers x (List.mem_cons_of_mem _ hx))
      rw [List.filter_cons]
      by_cases hqc : q c = true
      · rw [if_pos hqc, List.map_cons, List.filter_cons,
          if_neg (by simp [hothers c (List.mem_cons_self c rest) hcneb hqc])]
        exact hrec
      · rw [if_neg (by simp [hqc])]
        exact hrec

theorem select_single (appt : Appt) :
    ∀ db : List Appt, (db.map (fun a => a.id)).Nodup → appt ∈ db →
    db.filter (fun a => decide (a.id ∈ [appt.id] ∧ a.doctor = appt.doctor)) = [appt] := by
  intro db hN ha
  apply filter_eq_singleton_of_nodup appt _ (by simp) _ db hN ha
  intro x hx
  simp only [List.mem_singleton, decide_eq_true_eq] at hx
  exact hx.1

/-- The original appointment of the reschedule pair used in the C4
failing input and the C8 witness. -/
def apptOriginal : Appt :=
  { id := 1, patient := 1, doctor := 3, scheduled_for := 1500, reason := "visit",
    status := Status.requested, payment := none, rescheduled_from := none }

/-- The replacement appointment of the reschedule pair used in the C4
failing input and the C8 witness. -/
def apptReplacement : Appt :=
  { id := 2, patient := 1, doctor := 3, scheduled_for := 2040, reason := "visit",
    status := Status.reschedule_requested, payment := none, rescheduled_from := some 1 }

/-- C4: the claim says approving a reschedule_requested appointment
with a non-null `rescheduled_from` link deletes the original and sets
the replacement's status to approved, leaving exactly one approved row
of the pair.  The code does not reach that state: `original.delete()`
removes the original row and SET_NULL clears the link, but the
subsequent `appt.save()` (views.py line 695) raises Django's
unsaved-related-object ValueError — the related instance cached on
`appt` is the deleted original, whose primary key the delete cleared —
before the approved status is written, and nothing catches it.  At
this concrete input the request therefore crashes and the replacement
row is left in status reschedule_requested, not approved. -/
theorem doctor_approve_reschedule_crashes :
    doctor_update_appointments_set_status [apptOriginal, apptReplacement]
        apptReplacement.doctor [apptReplacement.id] Status.approved
      = Except.error [{ apptReplacement with rescheduled_from := none }]
    ∧ ({ apptReplacement with rescheduled_from := none } : Appt).status
        = Status.reschedule_requested := by
  exact ⟨rfl, rfl⟩

/-- C8: deciding an appointment with a non-null `rescheduled_from` link
using "rejected" or "cancelled" completes without crashing (this branch
only deletes, it never saves a stale relation), deletes that
replacement row entirely, and leaves the linked original row exactly
as it was — same status and every other field unchanged. -/
theorem doctor_reject_reschedule (db : List Appt) (appt orig : Appt) (origId : Nat)
    (new_status : Status)
    (hns : new_status = Status.rejected ∨ new_status = Status.cancelled)
    (hN : (db.map (fun a => a.id)).Nodup)
    (ha : appt ∈ db) (hlink : appt.rescheduled_from = some origId)
    (ho : orig ∈ db) (hoid : orig.id = origId) (hne : appt.id ≠ origId)
    (hnocycle : orig.rescheduled_from ≠ some appt.id) :
    (doctor_update_appointments_set_status db appt.doctor [appt.id] new_status).isOk = true
    ∧ ((exceptTable
        (doctor_update_appointments_set_status db appt.doctor [appt.id] new_status)).filter
        (fun a => decide (a.id = appt.id))) = []
    ∧ ((exceptTable
        (doctor_update_appointments_set_status db appt.doctor [appt.id] new_status)).filter
        (fun a => decide (a.id = origId))) = [orig] := by
  have hallowed : new_status ∈ allowedSetStatuses := by
    rcases hns with h | h <;> subst h <;> decide
  have hstep_eq : setStatusStep db appt new_status
      = Except.ok (deleteAppt db appt.id) := by
    rcases hns with h | h <;> subst h <;> simp [setStatusStep, hlink]
  have hres : doctor_update_appointments_set_status db appt.doctor [appt.id] new_status
      = Except.ok (deleteAppt db appt.id) := by
    unfold doctor_update_appointments_set_status
    rw [if_pos hallowed, select_single appt db hN ha, orderBy_single]
    rw [setStatusLoop, hstep_eq]
    rfl
  rw [hres]
  refine ⟨rfl, ?_, ?_⟩
  · show ((deleteAppt db appt.id).filter (fun a => decide (a.id = appt.id))) = []
    unfold deleteAppt
    apply filter_map_nil_general
    intro x hx hq
    simp only [ne_eq, decide_eq_true_eq] at hq
    by_cases hrf : x.rescheduled_from = some appt.id <;> simp [hrf, hq]
  · show ((deleteAppt db appt.id).filter (fun a => decide (a.id = origId))) = [orig]
    unfold deleteAppt
    refine (filter_map_singleton_general _ _ _ orig ?_ ?_ db hN ho ?_).trans ?_
    · rw [hoid]
      exact decide_eq_true (Ne.symm hne)
    · simp [hnocycle, hoid]
    · intro x hx hxid hq
      have hxo : x.id ≠ origId := by rw [← hoid]; exact hxid
      by_cases hrf : x.rescheduled_from = some appt.id <;> simp [hrf, hxo]
    · simp [hnocycle]

/-- Witness for the C8 theorem: cancelling the replacement succeeds,
removes it, and leaves the original row untouched. -/
theorem doctor_reject_reschedule_witness :
    (doctor_update_appointments_set_status [apptOriginal, apptReplacement]
        apptReplacement.doctor [apptReplacement.id] Status.cancelled).isOk = true
    ∧ ((exceptTable (doctor_update_appointments_set_status [apptOriginal, apptReplacement]
        apptReplacement.doctor [apptReplacement.id] Status.cancelled)).filter
        (fun a => decide (a.id = apptReplacement.id))) = []
    ∧ ((exceptTable (doctor_update_appointments_set_status [apptOriginal, apptReplacement]
        apptReplacement.doctor [apptReplacement.id] Status.cancelled)).filter
        (fun a => decide (a.id = 1))) = [apptOriginal] :=
  doctor_reject_reschedule [apptOriginal, apptReplacement] apptReplacement apptOriginal 1
    Status.cancelled (Or.inr rfl)
    (by decide) (by simp) (by decide) (by simp) (by decide) (by decide) (by decide)

/-- Outcomes of the reschedule POST path that leave the table unchanged.
`uniqueViolation` is an uncaught IntegrityError from the create; the
others are message-and-redirect errors in views.py. -/
inductive RescheduleErr
  | missingBlock
  | pastOriginal
  | pastNew
  | conflict
  | uniqueViolation
deriving DecidableEq, Repr

/-- The conflict check of `patient_reschedule_block` (views.py): some
appointment of the doctor at `new_start` whose status is not in
{cancelled, rejected, rescheduled}. -/
def rescheduleConflict (db : List Appt) (doctor new_start : Nat) : Bool :=
  db.any (fun a => decide (a.doctor = doctor ∧ a.scheduled_for = new_start
    ∧ a.status ≠ Status.cancelled ∧ a.status ≠ Status.rejected
    ∧ a.status ≠ Status.rescheduled))

/-- The original-block queryset of `patient_reschedule_block` (views.py):
the patient's appointments with this doctor scheduled in
[original_start, original_end), excluding cancelled/completed/
rescheduled, ordered by `scheduled_for`. -/
def originalBlockQs (db : List Appt) (patient doctor original_start original_end : Nat) :
    List Appt :=
  orderBy (fun a b => a.scheduled_for ≤ b.scheduled_for)
    (db.filter (fun a => decide (a.patient = patient ∧ a.doctor = doctor
      ∧ original_start ≤ a.scheduled_for ∧ a.scheduled_for < original_end
      ∧ a.status ≠ Status.cancelled ∧ a.status ≠ Status.completed
      ∧ a.status ≠ Status.rescheduled)))

/-- The POST finalize step of `patient_reschedule_block` (views.py):
checks, in order, that an active original block exists, that the block
start and the new start lie strictly in the future, and that no active
appointment occupies `new_start`; then creates the
`reschedule_requested` replacement linked to the first appointment of
the original block.  The view never consults `DoctorAvailability` or
the slot generator on this path.  Returns the table after the request
together with the error, if any. -/
def patient_reschedule_block (db : List Appt) (patient doctor : Nat)
    (original_start original_end now new_start nextId : Nat) :
    List Appt × Option RescheduleErr :=
  match originalBlockQs db patient doctor original_start original_end with
  | [] => (db, some RescheduleErr.missingBlock)
  | original_root :: _ =>
    if original_start ≤ now then (db, some RescheduleErr.pastOriginal)
    else if new_start ≤ now then (db, some RescheduleErr.pastNew)
    else if rescheduleConflict db doctor new_start then
      (db, some RescheduleErr.conflict)
    else
      match insertAppointment db
        { id := nextId, patient := patient, doctor := doctor,
          scheduled_for := new_start, reason := original_root.reason,
          status := Status.reschedule_requested, payment := none,
          rescheduled_from := some original_root.id } with
      | Except.ok db2 => (db2, none)
      | Except.error _ => (db, some RescheduleErr.uniqueViolation)

/-- C5 (amended): on a well-formed reschedule request (an active
original block exists, its start and the requested new start are in the
future), the request is rejected as a conflict and creates no record
whenever `new_start` is occupied by an appointment of the doctor with
status outside {cancelled, rejected, rescheduled}; availability
(membership in an open window, slot alignment) is not re-checked on
this path — only futurity and this conflict check gate the request. -/
theorem patient_reschedule_block_conflict (db : List Appt) (patient doctor : Nat)
    (original_start original_end now new_start nextId : Nat)
    (hblock : originalBlockQs db patient doctor original_start original_end ≠ [])
    (hfut : now < original_start) (hfutnew : now < new_start)
    (hconf : rescheduleConflict db doctor new_start = true) :
    patient_reschedule_block db patient doctor original_start original_end now new_start nextId
      = (db, some RescheduleErr.conflict) := by
  cases hqs : originalBlockQs db patient doctor original_start original_end with
  | nil => exact absurd hqs hblock
  | cons root rest =>
    have h1 : ¬(original_start ≤ now) := by omega
    have h2 : ¬(new_start ≤ now) := by omega
    simp [patient_reschedule_block, hqs, h1, h2, hconf]

/-- The requested-status appointment block used in the C5 witness and
counterexample. -/
def reschedOrigRow : Appt :=
  { id := 1, patient := 7, doctor := 2, scheduled_for := 1500, reason := "pain",
    status := Status.requested, payment := none, rescheduled_from := none }

/-- An approved appointment occupying the reschedule target slot in the
C5 witness. -/
def reschedBlockerRow : Appt :=
  { id := 2, patient := 8, doctor := 2, scheduled_for := 2100, reason := "exam",
    status := Status.approved, payment := none, rescheduled_from := none }

/-- Witness for the C5 amended theorem: rescheduling onto a slot held by
another active appointment is rejected as a conflict and the table is
unchanged. -/
theorem patient_reschedule_block_conflict_witness :
    patient_reschedule_block [reschedOrigRow, reschedBlockerRow] 7 2 1500 1530 100 2100 9
      = ([reschedOrigRow, reschedBlockerRow], some RescheduleErr.conflict) :=
  patient_reschedule_block_conflict [reschedOrigRow, reschedBlockerRow] 7 2 1500 1530 100 2100 9
    (by decide) (by decide) (by decide) (by decide)

/-- C5 counterexample: the claim also demands that a successful
reschedule target independently pass SlotGenerator-style availability
(lie inside an open window, slot-aligned, in the future).  Here the
doctor has no availability window at all — the slot generator returns
[] for every booked set — and the target minute 777 is not aligned to
anything, yet the request succeeds and creates the replacement record:
the view performs no availability re-check. -/
theorem patient_reschedule_block_no_availability_check :
    (patient_reschedule_block [reschedOrigRow] 7 2 1500 1530 100 777 5).2 = none
    ∧ (patient_reschedule_block [reschedOrigRow] 7 2 1500 1530 100 777 5).1
        = [reschedOrigRow,
           { id := 5, patient := 7, doctor := 2, scheduled_for := 777, reason := "pain",
             status := Status.reschedule_requested, payment := none,
             rescheduled_from := some 1 }]
    ∧ get_available_slots_for_doctor [] [] 100 = [] := by
  refine ⟨rfl, rfl, rfl⟩

/-- The four-way window surgery of the delete_slot action in
`doctor_schedule_view` (views.py), for the window [s, e) found by the
lookup `start_time <= slot_start.time, end_time >= slot_end.time`: it
returns the windows replacing [s, e). -/
def doctor_schedule_delete_slot_resolve (s e slot_start : Nat) : List (Nat × Nat) :=
  if s = slot_start ∧ e = slot_start + SLOT_MINUTES then []
  else if s = slot_start ∧ slot_start + SLOT_MINUTES < e then
    [(slot_start + SLOT_MINUTES, e)]
  else if s < slot_start ∧ slot_start + SLOT_MINUTES = e then [(s, slot_start)]
  else [(s, slot_start), (slot_start + SLOT_MINUTES, e)]

/-- C6: for a window [s, e) and a deletable slot with s ≤ slot_start and
slot_start + 30 ≤ e: a slot spanning the whole window deletes it; the
leading slot shrinks the window to [slot_start + 30, e); the trailing
slot shrinks it to [s, slot_start); an interior slot splits it into
[s, slot_start) and [slot_start + 30, e), whose combined span is the
original span minus the removed 30 minutes. -/
theorem delete_slot_window_cases (s e slot : Nat) (hs : s ≤ slot)
    (he : slot + SLOT_MINUTES ≤ e) :
    (s = slot ∧ e = slot + SLOT_MINUTES →
      doctor_schedule_delete_slot_resolve s e slot = [])
    ∧ (s = slot ∧ slot + SLOT_MINUTES < e →
      doctor_schedule_delete_slot_resolve s e slot = [(slot + SLOT_MINUTES, e)])
    ∧ (s < slot ∧ slot + SLOT_MINUTES = e →
      doctor_schedule_delete_slot_resolve s e slot = [(s, slot)])
    ∧ (s < slot ∧ slot + SLOT_MINUTES < e →
      doctor_schedule_delete_slot_resolve s e slot = [(s, slot), (slot + SLOT_MINUTES, e)]
      ∧ (slot - s) + (e - (slot + SLOT_MINUTES)) = (e - s) - SLOT_MINUTES) := by
  refine ⟨fun h => ?_, fun h => ?_, fun h => ?_, fun h => ?_⟩ <;>
    obtain ⟨h1, h2⟩ := h <;>
    simp only [doctor_schedule_delete_slot_resolve, SLOT_MINUTES] at *
  · rw [if_pos ⟨h1, h2⟩]
  · rw [if_neg (by omega), if_pos ⟨h1, h2⟩]
  · rw [if_neg (by omega), if_neg (by omega), if_pos ⟨h1, h2⟩]
  · exact ⟨by rw [if_neg (by omega), if_neg (by omega), if_neg (by omega)], by omega⟩

/-- Witness for the C6 theorem: the specification's concrete scenario —
deleting the 09:30 slot (minute 570) from the window [09:00, 10:30)
(minutes [540, 630)) yields the windows [09:00, 09:30) and
[10:00, 10:30). -/
theorem delete_slot_window_cases_witness :
    doctor_schedule_delete_slot_resolve 540 630 570 = [(540, 570), (600, 630)]
    ∧ (570 - 540) + (630 - (570 + SLOT_MINUTES)) = (630 - 540) - SLOT_MINUTES :=
  (delete_slot_window_cases 540 630 570 (by decide) (by decide)).2.2.2
    ⟨by decide, by decide⟩

/-- Failure modes of the create/update-window action of
`doctor_schedule_view` (views.py): `validation` is the
"Start must be before end." rejection; `multipleObjects` is the
MultipleObjectsReturned exception `update_or_create` raises, uncaught,
when several windows already exist for (doctor, date). -/
inductive UpsertErr
  | validation
  | multipleObjects
deriving DecidableEq, Repr

/-- The create/update-window action of `doctor_schedule_view`
(views.py): reject start >= end, then
`DoctorAvailability.objects.update_or_create(doctor=..., date=d,
defaults={start_time, end_time})` — create when no window matches the
key, update the single matching window, raise when several match.
`windows` is the doctor's window table. -/
def doctor_schedule_upsert_window (windows : List Window) (d start_t end_t : Nat) :
    List Window × Option UpsertErr :=
  if start_t ≥ end_t then (windows, some UpsertErr.validation)
  else
    match windows.filter (fun w => decide (w.date = d)) with
    | [] => (windows ++ [⟨d, start_t, end_t⟩], none)
    | [_] => (windows.map (fun w => if w.date = d then ⟨d, start_t, end_t⟩ else w), none)
    | _ => (windows, some UpsertErr.multipleObjects)

theorem map_replace_filter (d : Nat) (c : Window) (hc : c.date = d) :
    ∀ l : List Window,
    ((l.map (fun w => if w.date = d then c else w)).filter (fun w => decide (w.date = d)))
      = (l.filter (fun w => decide (w.date = d))).map (fun _ => c) := by
  intro l
  induction l with
  | nil => rfl
  | cons w rest ih =>
    by_cases hw : w.date = d
    · simp [List.filter_cons, hw, hc, ih]
    · simp [List.filter_cons, hw, ih]

/-- C9 (amended): the window upsert validates start < end, rejecting
start ≥ end as a validation error with the table unchanged; and
whenever the prior state holds at most one window keyed by (doctor,
date) — the only states direct window creation produces — the call
succeeds and afterwards exactly one window [start, end) exists for that
key.  When slot deletion has split the date into two or more windows,
`update_or_create` instead raises MultipleObjectsReturned and the
windows are left as they were. -/
theorem doctor_schedule_upsert_window_amended (windows : List Window)
    (d start_t end_t : Nat) :
    (end_t ≤ start_t →
      doctor_schedule_upsert_window windows d start_t end_t
        = (windows, some UpsertErr.validation))
    ∧ (start_t < end_t →
      (windows.filter (fun w => decide (w.date = d))).length ≤ 1 →
      (doctor_schedule_upsert_window windows d start_t end_t).2 = none
      ∧ ((doctor_schedule_upsert_window windows d start_t end_t).1.filter
          (fun w => decide (w.date = d))) = [⟨d, start_t, end_t⟩]) := by
  constructor
  · intro h
    unfold doctor_schedule_upsert_window
    rw [if_pos h]
  · intro hlt hcount
    have hnotge : ¬(start_t ≥ end_t) := by omega
    cases hqs : windows.filter (fun w => decide (w.date = d)) with
    | nil =>
      constructor
      · simp [doctor_schedule_upsert_window, hnotge, hqs]
      · simp [doctor_schedule_upsert_window, hnotge, hqs, List.filter_append]
    | cons w rest =>
      cases rest with
      | cons w2 rest2 => rw [hqs] at hcount; simp at hcount
      | nil =>
        constructor
        · simp [doctor_schedule_upsert_window, hnotge, hqs]
        · have hrepl := map_replace_filter d ⟨d, start_t, end_t⟩ rfl windows
          simp [doctor_schedule_upsert_window, hnotge, hqs, hrepl]

/-- Witness for the C9 amended theorem: with a single prior window on
the date, the upsert replaces it and exactly one window with the new
bounds remains. -/
theorem doctor_schedule_upsert_window_amended_witness :
    (doctor_schedule_upsert_window [⟨5, 540, 570⟩] 5 600 660).2 = none
    ∧ ((doctor_schedule_upsert_window [⟨5, 540, 570⟩] 5 600 660).1.filter
        (fun w => decide (w.date = 5))) = [⟨5, 600, 660⟩] :=
  (doctor_schedule_upsert_window_amended [⟨5, 540, 570⟩] 5 600 660).2
    (by decide) (by decide)

/-- C9 counterexample: the claim promises that for any prior state of
the doctor's windows on the date, after the call exactly one window
with the new bounds exists.  On the two-window state that slot deletion
produces (for instance the split [09:00, 09:30), [10:00, 10:30) of the
C6 scenario), `update_or_create` raises MultipleObjectsReturned
instead: the call fails and both prior windows remain. -/
theorem doctor_schedule_upsert_window_counterexample :
    doctor_schedule_upsert_window [⟨5, 540, 570⟩, ⟨5, 600, 630⟩] 5 540 660
      = ([⟨5, 540, 570⟩, ⟨5, 600, 630⟩], some UpsertErr.multipleObjects)
    ∧ (([⟨5, 540, 570⟩, ⟨5, 600, 630⟩] : List Window).filter
        (fun w => decide (w.date = 5))).length = 2 := by
  refine ⟨rfl, rfl⟩

/-- The calendar date of a timestamp (`appt.scheduled_for.date()` in
views.py), with days of 1440 minutes. -/
def apptDay (a : Appt) : Nat := a.scheduled_for / 1440

/-- The in-memory block dictionary built by
`group_appointments_for_patient` (views.py).  `stop` is the dictionary
key "end" (a reserved word in Lean). -/
structure Block where
  doctor : Nat
  patient : Nat
  date : Nat
  start : Nat
  stop : Nat
  status : Status
  reason : String
  payment : Option Nat
  slot_ids : List Nat
  slots : List Appt
  rescheduled_from : Option Nat
deriving DecidableEq, Repr

/-- `current["slots"][-1].scheduled_for` (views.py); the grouping loop
keeps `slots` nonempty, so the 0 of an empty block is never consulted. -/
def blockLastStart (cur : Block) : Nat :=
  match cur.slots.getLast? with
  | some a => a.scheduled_for
  | none => 0

/-- The fresh block opened for an appointment (views.py). -/
def newBlock (a : Appt) : Block :=
  { doctor := a.doctor, patient := a.patient, date := apptDay a,
    start := a.scheduled_for, stop := a.scheduled_for + SLOT_MINUTES,
    status := a.status, reason := a.reason, payment := a.payment,
    slot_ids := [a.id], slots := [a], rescheduled_from := a.rescheduled_from }

/-- The `same_block` test of `group_appointments_for_patient`
(views.py): doctor, patient, date, status, reason, payment identity and
rescheduled_from identity all match the current block, and
`scheduled_for` equals the block's last slot start plus 30 minutes. -/
def sameBlock (cur : Block) (a : Appt) : Prop :=
  a.doctor = cur.doctor ∧ a.patient = cur.patient ∧ apptDay a = cur.date
  ∧ a.status = cur.status ∧ a.reason = cur.reason ∧ a.payment = cur.payment
  ∧ a.scheduled_for = blockLastStart cur + SLOT_MINUTES
  ∧ a.rescheduled_from = cur.rescheduled_from

instance (cur : Block) (a : Appt) : Decidable (sameBlock cur a) := by
  unfold sameBlock; infer_instance

/-- Appending an appointment to the current block (views.py). -/
def extendBlock (cur : Block) (a : Appt) : Block :=
  { cur with
    slots := cur.slots ++ [a]
    slot_ids := cur.slot_ids ++ [a.id]
    stop := a.scheduled_for + SLOT_MINUTES }

/-- The grouping fold of `group_appointments_for_patient` (views.py),
after the first appointment has opened the current block. -/
def groupGo (blocks : List Block) (cur : Block) : List Appt → List Block
  | [] => blocks ++ [cur]
  | a :: rest =>
    if sameBlock cur a then groupGo blocks (extendBlock cur a) rest
    else groupGo (blocks ++ [cur]) (newBlock a) rest

/-- `group_appointments_for_patient` (views.py): order the queryset by
(doctor id, scheduled_for) and collapse contiguous 30-minute
appointments into blocks. -/
def group_appointments_for_patient (qs : List Appt) : List Block :=
  match orderBy (fun a b => decide (a.doctor < b.doctor
      ∨ (a.doctor = b.doctor ∧ a.scheduled_for ≤ b.scheduled_for))) qs with
  | [] => []
  | a :: rest => groupGo [] (newBlock a) rest

/-- One appointment extends a contiguous run: the seven block
attributes coincide with its predecessor's and it is scheduled exactly
30 minutes later. -/
def extendsRun (prev a : Appt) : Prop :=
  a.doctor = prev.doctor ∧ a.patient = prev.patient ∧ apptDay a = apptDay prev
  ∧ a.status = prev.status ∧ a.reason = prev.reason ∧ a.payment = prev.payment
  ∧ a.scheduled_for = prev.scheduled_for + SLOT_MINUTES
  ∧ a.rescheduled_from = prev.rescheduled_from

instance (prev a : Appt) : Decidable (extendsRun prev a) := by
  unfold extendsRun; infer_instance

/-- The block that grouping a contiguous run f :: mid produces. -/
def blockOfRun (f : Appt) (mid : List Appt) : Block :=
  mid.foldl extendBlock (newBlock f)

/-- A block's individual slot appointments (`block["slots"]`). -/
def ungroupBlock (b : Block) : List Appt := b.slots

/-- The seven attributes the grouping matches on. -/
def apptAttrs (a : Appt) : Nat × Nat × Nat × Status × String × Option Nat × Option Nat :=
  (a.doctor, a.patient, apptDay a, a.status, a.reason, a.payment, a.rescheduled_from)

theorem extendsRun_attrs {p a : Appt} (h : extendsRun p a) :
    apptAttrs a = apptAttrs p ∧ a.scheduled_for = p.scheduled_for + SLOT_MINUTES := by
  obtain ⟨h1, h2, h3, h4, h5, h6, h7, h8⟩ := h
  exact ⟨by simp [apptAttrs, h1, h2, h3, h4, h5, h6, h8], h7⟩

theorem mem_of_getLast?_eq {α : Type} {l : List α} {a : α}
    (h : l.getLast? = some a) : a ∈ l := by
  obtain ⟨hne, heq⟩ := List.mem_getLast?_eq_getLast (l := l) (x := a)
    (by rw [h]; exact Option.mem_def.mpr rfl)
  rw [heq]
  exact List.getLast_mem hne

theorem chain_attrs (f : Appt) : ∀ l : List Appt,
    List.Chain' extendsRun (f :: l) → ∀ x ∈ f :: l, apptAttrs x = apptAttrs f := by
  intro l
  induction l generalizing f with
  | nil =>
    intro _ x hx
    simp only [List.mem_singleton] at hx
    rw [hx]
  | cons a rest ih =>
    intro hch x hx
    rw [List.chain'_cons] at hch
    obtain ⟨hfa, hrest⟩ := hch
    rcases List.mem_cons.mp hx with hx1 | hx2
    · rw [hx1]
    · rw [ih a hrest x hx2, (extendsRun_attrs hfa).1]

theorem foldl_extendBlock_slots : ∀ (mid : List Appt) (cur : Block),
    (List.foldl extendBlock cur mid).slots = cur.slots ++ mid := by
  intro mid
  induction mid with
  | nil => intro cur; simp
  | cons a rest ih =>
    intro cur
    rw [List.foldl_cons, ih (extendBlock cur a)]
    simp [extendBlock]

theorem foldl_extendBlock_fields : ∀ (mid : List Appt) (cur : Block),
    (List.foldl extendBlock cur mid).doctor = cur.doctor
    ∧ (List.foldl extendBlock cur mid).patient = cur.patient
    ∧ (List.foldl extendBlock cur mid).date = cur.date
    ∧ (List.foldl extendBlock cur mid).status = cur.status
    ∧ (List.foldl extendBlock cur mid).reason = cur.reason
    ∧ (List.foldl extendBlock cur mid).payment = cur.payment
    ∧ (List.foldl extendBlock cur mid).rescheduled_from = cur.rescheduled_from := by
  intro mid
  induction mid with
  | nil => intro cur; exact ⟨rfl, rfl, rfl, rfl, rfl, rfl, rfl⟩
  | cons a rest ih =>
    intro cur
    rw [List.foldl_cons]
    have h := ih (extendBlock cur a)
    simpa [extendBlock] using h

theorem blockOfRun_slots (f : Appt) (mid : List Appt) :
    (blockOfRun f mid).slots = f :: mid := by
  unfold blockOfRun
  rw [foldl_extendBlock_slots]
  rfl

theorem blockLastStart_blockOfRun {f L : Appt} {pre : List Appt}
    (hL : (f :: pre).getLast? = some L) :
    blockLastStart (blockOfRun f pre) = L.scheduled_for := by
  unfold blockLastStart
  rw [blockOfRun_slots, hL]

theorem groupGo_run (f : Appt) : ∀ (mid pre : List Appt) (blocks : List Block),
    List.Chain' extendsRun (f :: (pre ++ mid)) →
    groupGo blocks (blockOfRun f pre) mid = blocks ++ [blockOfRun f (pre ++ mid)] := by
  intro mid
  induction mid with
  | nil =>
    intro pre blocks _
    simp [groupGo]
  | cons a rest ih =>
    intro pre blocks hch
    have hch0 := hch
    rw [show f :: (pre ++ a :: rest) = (f :: pre) ++ (a :: rest) by simp,
      List.chain'_append] at hch
    obtain ⟨hch1, _, hjunc⟩ := hch
    obtain ⟨L, hL⟩ := Option.isSome_iff_exists.mp
      (List.getLast?_isSome.mpr (by simp) :
        ((f :: pre).getLast?).isSome)
    have hRLa : extendsRun L a :=
      hjunc L (by rw [hL]; exact Option.mem_def.mpr rfl) a rfl
    have hLmem : L ∈ f :: pre := mem_of_getLast?_eq hL
    have hattrsL : apptAttrs L = apptAttrs f := chain_attrs f pre hch1 L hLmem
    have hattrsa : apptAttrs a = apptAttrs f := by
      rw [(extendsRun_attrs hRLa).1, hattrsL]
    simp only [apptAttrs, Prod.mk.injEq] at hattrsa
    obtain ⟨b1, b2, b3, b4, b5, b6, b7⟩ := hattrsa
    obtain ⟨hf1, hf2, hf3, hf4, hf5, hf6, hf7⟩ := foldl_extendBlock_fields pre (newBlock f)
    have hsb : sameBlock (blockOfRun f pre) a := by
      refine ⟨?_, ?_, ?_, ?_, ?_, ?_, ?_, ?_⟩
      · rw [b1]; exact (hf1.trans rfl).symm
      · rw [b2]; exact (hf2.trans rfl).symm
      · rw [b3]; exact (hf3.trans rfl).symm
      · rw [b4]; exact (hf4.trans rfl).symm
      · rw [b5]; exact (hf5.trans rfl).symm
      · rw [b6]; exact (hf6.trans rfl).symm
      · rw [blockLastStart_blockOfRun hL]
        exact (extendsRun_attrs hRLa).2
      · rw [b7]; exact (hf7.trans rfl).symm
    rw [groupGo, if_pos hsb]
    have hext : extendBlock (blockOfRun f pre) a = blockOfRun f (pre ++ [a]) := by
      unfold blockOfRun
      rw [List.foldl_append]
      rfl
    rw [hext]
    have hchIH : List.Chain' extendsRun (f :: ((pre ++ [a]) ++ rest)) := by
      rw [show (pre ++ [a]) ++ rest = pre ++ a :: rest by simp]
      exact hch0
    rw [ih (pre ++ [a]) blocks hchIH,
      show (pre ++ [a]) ++ rest = pre ++ a :: rest by simp]

theorem insertSorted_of_forall_le (le : α → α → Bool) (a : α) :
    ∀ l : List α, (∀ b ∈ l, le a b = true) → insertSorted le a l = a :: l := by
  intro l h
  cases l with
  | nil => rfl
  | cons b rest => rw [insertSorted, if_pos (h b (List.mem_cons_self b rest))]

theorem orderBy_sorted_id (le : α → α → Bool) :
    ∀ l : List α, l.Pairwise (fun x y => le x y = true) → orderBy le l = l := by
  intro l
  induction l with
  | nil => intro _; rfl
  | cons a rest ih =>
    intro hp
    rw [List.pairwise_cons] at hp
    rw [orderBy, ih hp.2, insertSorted_of_forall_le le a rest hp.1]

theorem chain_pairwise_sortkey (f : Appt) (mid : List Appt)
    (h : List.Chain' extendsRun (f :: mid)) :
    (f :: mid).Pairwise (fun x y => (decide (x.doctor < y.doctor
      ∨ (x.doctor = y.doctor ∧ x.scheduled_for ≤ y.scheduled_for))) = true) := by
  have hch' : List.Chain'
      (fun x y : Appt => y.doctor = x.doctor ∧ x.scheduled_for < y.scheduled_for)
      (f :: mid) := by
    refine h.imp ?_
    intro x y hxy
    obtain ⟨hd, _, _, _, _, _, hs, _⟩ := hxy
    refine ⟨hd, ?_⟩
    rw [hs]
    simp [SLOT_MINUTES]
  letI : IsTrans Appt
      (fun x y : Appt => y.doctor = x.doctor ∧ x.scheduled_for < y.scheduled_for) :=
    ⟨fun _ _ _ hab hbc => ⟨hbc.1.trans hab.1, hab.2.trans hbc.2⟩⟩
  have hpw := List.chain'_iff_pairwise.mp hch'
  refine hpw.imp ?_
  intro x y hxy
  exact decide_eq_true (Or.inr ⟨hxy.1.symm, Nat.le_of_lt hxy.2⟩)

/-- C7: grouping the individual slot appointments of a well-formed
contiguous block — a run f :: mid in which every appointment shares
doctor, patient, date, status, reason, payment identity and
rescheduled_from identity with its predecessor and is scheduled exactly
30 minutes after it — reconstructs exactly one block, equal to the
block of that run (round-trip law).  An appointment extends the current
block iff the seven attributes match and its scheduled_for equals the
block's last slot start plus 30 minutes (`sameBlock`). -/
theorem group_appointments_roundtrip (f : Appt) (mid : List Appt)
    (hrun : List.Chain' extendsRun (f :: mid)) :
    group_appointments_for_patient (ungroupBlock (blockOfRun f mid))
      = [blockOfRun f mid] := by
  have hslots : ungroupBlock (blockOfRun f mid) = f :: mid := blockOfRun_slots f mid
  rw [hslots]
  unfold group_appointments_for_patient
  rw [orderBy_sorted_id _ _ (chain_pairwise_sortkey f mid hrun)]
  show groupGo [] (newBlock f) mid = [blockOfRun f mid]
  have hgo := groupGo_run f mid [] [] (by simpa using hrun)
  simpa [blockOfRun] using hgo

/-- Two contiguous appointments forming the concrete block of the C7
witness. -/
def runFirstAppt : Appt :=
  { id := 11, patient := 1, doctor := 3, scheduled_for := 1500, reason := "visit",
    status := Status.requested, payment := none, rescheduled_from := none }

/-- The second slot of the C7 witness block, 30 minutes after the
first. -/
def runSecondAppt : Appt :=
  { id := 12, patient := 1, doctor := 3, scheduled_for := 1530, reason := "visit",
    status := Status.requested, payment := none, rescheduled_from := none }

/-- Witness for the C7 theorem on a concrete two-slot block. -/
theorem group_appointments_roundtrip_witness :
    group_appointments_for_patient (ungroupBlock (blockOfRun runFirstAppt [runSecondAppt]))
      = [blockOfRun runFirstAppt [runSecondAppt]] :=
  group_appointments_roundtrip runFirstAppt [runSecondAppt] (by
    constructor
    · decide
    · exact List.chain'_singleton _)
